import Mathlib

/-!
Verification of the Global Service Registry data model and operations of
the coddiwomple repository.

The file embeds, as executable Lean definitions:
  * the `Port` and `GlobalService` records of `pkg/datamodel/model.go`,
    together with their JSON serialization shape (the `json:"..."` struct
    tags, including `omitempty` on `Unregistered`);
  * the Registry operations (`Contribute`, `Withdraw`, `Get`, `List`,
    `Delete`) and the Address Pool, whose implementation is not part of
    the `pkg/datamodel` declarations and is therefore modelled from the
    specification's operation contracts.

Machine integers (`uint32` ports) are modelled as `Nat`; the virtual IP
(`net.IP`) is modelled as a `Nat` drawn from the Address Pool, rendered as
a string in the serialized form.
-/

deriving instance DecidableEq for Except

/-- Error taxonomy of the Registry, from the spec's error-handling design. -/
inductive RegError where
  | notFound
  | alreadyExists
  | conflict
  | validation
  | poolExhausted
  | preconditionFailed
deriving DecidableEq, Repr

/-- Port describes the properties of a specific port of a service
(`pkg/datamodel/model.go`, struct `Port`). -/
structure Port where
  servicePort : Nat
  protocol : String
  backendPort : Nat
  name : String
deriving DecidableEq, Repr

/-- GlobalService is a service exposed from a cluster
(`pkg/datamodel/model.go`, struct `GlobalService`).  `Backends` is an
association list from cluster name to backend address; `Address` is the
allocated virtual IP, modelled as a `Nat`. -/
structure GlobalService where
  name : String
  dnsPrefixes : List String
  ports : List Port
  backends : List (String × String)
  address : Nat
  unregistered : Bool
deriving DecidableEq, Repr

/-- Registry state: the service table plus the Address Pool's free list. -/
structure Registry where
  services : List (String × GlobalService)
  pool : List Nat
deriving DecidableEq, Repr

/-- Lookup in an association list keyed by strings. -/
def alookup {β : Type} (k : String) : List (String × β) → Option β
  | [] => none
  | (k₁, v) :: rest => if k₁ = k then some v else alookup k rest

/-- Insert-or-replace in an association list keyed by strings. -/
def upsert {β : Type} (k : String) (v : β) : List (String × β) → List (String × β)
  | [] => [(k, v)]
  | (k₁, v₁) :: rest => if k₁ = k then (k, v) :: rest else (k₁, v₁) :: upsert k v rest

/-- Remove every binding of a key from an association list. -/
def removeKey {β : Type} (k : String) : List (String × β) → List (String × β)
  | [] => []
  | (k₁, v₁) :: rest => if k₁ = k then removeKey k rest else (k₁, v₁) :: removeKey k rest

/-- Modelled from the spec: the Address Pool's `Allocate` picks the lowest
available address (the pool implementation is not part of the
`pkg/datamodel` declarations). -/
def lowestAvail : List Nat → Option Nat
  | [] => none
  | a :: rest =>
    match lowestAvail rest with
    | none => some a
    | some b => some (min a b)

/-- Remove one occurrence of an address from the free list. -/
def removeAddr (a : Nat) : List Nat → List Nat
  | [] => []
  | b :: rest => if b = a then rest else b :: removeAddr a rest

/-- Lexicographic comparison of character lists. -/
def chainLt : List Char → List Char → Bool
  | _, [] => false
  | [], _ :: _ => true
  | a :: as, b :: bs => if a = b then chainLt as bs else decide (a < b)

/-- Lexicographic comparison of strings, the order in which the Registry
exposes DNS prefixes. -/
def strLt (s t : String) : Bool := chainLt s.data t.data

/-- Insert a string into a strictly sorted list, keeping it sorted and
duplicate-free. -/
def insertStr (s : String) : List String → List String
  | [] => [s]
  | t :: ts =>
    if s = t then t :: ts
    else if strLt s t then s :: t :: ts
    else t :: insertStr s ts

/-- Sort a list of strings and drop duplicates; the Registry exposes DNS
prefixes in this deterministic order. -/
def sortDedup (l : List String) : List String := l.foldr insertStr []

/-- First port with the given name, if any. -/
def findPort (n : String) : List Port → Option Port
  | [] => none
  | q :: qs => if q.name = n then some q else findPort n qs

/-- Modelled from the spec: merge one contributed port into the port set,
keyed by `Name`.  A `Name` already present with a different `ServicePort`
or `Protocol` is a conflict; a compatible duplicate keeps the existing
entry (the spec leaves per-port `BackendPort` resolution open); a fresh
`Name` is appended. -/
def mergePort (acc : List Port) (p : Port) : Except RegError (List Port) :=
  match findPort p.name acc with
  | some q =>
    if q.servicePort = p.servicePort ∧ q.protocol = p.protocol then .ok acc
    else .error .conflict
  | none => .ok (acc ++ [p])

/-- Merge a list of contributed ports into an existing port set. -/
def mergePorts (acc : List Port) : List Port → Except RegError (List Port)
  | [] => .ok acc
  | p :: ps =>
    match mergePort acc p with
    | .error e => .error e
    | .ok acc₁ => mergePorts acc₁ ps

/-- Record created by a first contribution for a never-seen name. -/
def freshService (serviceName clusterName : String) (ps : List Port)
    (backendAddress : String) (dnsPrefixes : List String) (a : Nat) :
    GlobalService :=
  { name := serviceName, dnsPrefixes := sortDedup dnsPrefixes, ports := ps,
    backends := [(clusterName, backendAddress)], address := a,
    unregistered := false }

/-- Record after merging a contribution into an existing record. -/
def mergedService (g : GlobalService) (clusterName : String) (ps : List Port)
    (backendAddress : String) (dnsPrefixes : List String) : GlobalService :=
  { g with ports := ps,
           backends := upsert clusterName backendAddress g.backends,
           dnsPrefixes := sortDedup (g.dnsPrefixes ++ dnsPrefixes),
           unregistered := false }

/-- Modelled from the spec: `Contribute(serviceName, clusterName, ports,
backendAddress, dnsPrefixes)`.  Creates the record on first contribution
(allocating an address from the pool), merges ports by name (whole call
fails with `ConflictError` on disagreement, all-or-nothing), upserts the
cluster's `Backends` entry, unions the DNS prefixes, and clears
`Unregistered`.  The Registry implementation is not part of the
`pkg/datamodel` declarations. -/
def contribute (r : Registry) (serviceName clusterName : String)
    (ports : List Port) (backendAddress : String) (dnsPrefixes : List String) :
    Except RegError Registry :=
  match alookup serviceName r.services with
  | none =>
    match lowestAvail r.pool with
    | none => .error .poolExhausted
    | some a =>
      match mergePorts [] ports with
      | .error e => .error e
      | .ok ps =>
        .ok { services := upsert serviceName
                (freshService serviceName clusterName ps backendAddress dnsPrefixes a)
                r.services,
              pool := removeAddr a r.pool }
  | some g =>
    match mergePorts g.ports ports with
    | .error e => .error e
    | .ok ps =>
      .ok { services := upsert serviceName
              (mergedService g clusterName ps backendAddress dnsPrefixes)
              r.services,
            pool := r.pool }

/-- Modelled from the spec: `Withdraw(serviceName, clusterName)` removes
the cluster's `Backends` entry (`NotFoundError` when the service is
absent; withdrawing an absent cluster entry is an idempotent no-op) and
sets `Unregistered` when `Backends` becomes empty.  `withdrawnService` is
the record after removing the cluster's entry. -/
def withdrawnService (g : GlobalService) (clusterName : String) : GlobalService :=
  { g with backends := removeKey clusterName g.backends,
           unregistered := match removeKey clusterName g.backends with
             | [] => true
             | _ :: _ => g.unregistered }

def withdraw (r : Registry) (serviceName clusterName : String) :
    Except RegError Registry :=
  match alookup serviceName r.services with
  | none => .error .notFound
  | some g =>
    .ok { r with
          services := upsert serviceName (withdrawnService g clusterName) r.services }

/-- Modelled from the spec: `Get(serviceName)` returns the record's value
(a snapshot) or `NotFoundError`. -/
def getGlobalService (r : Registry) (serviceName : String) :
    Except RegError GlobalService :=
  match alookup serviceName r.services with
  | none => .error .notFound
  | some g => .ok g

/-- Modelled from the spec: `List()` returns the name-to-record mapping. -/
def listGlobalServices (r : Registry) : List (String × GlobalService) :=
  r.services

/-- Modelled from the spec: `Delete(serviceName)` fails with
`NotFoundError` when absent, with `PreconditionFailedError` when
`Unregistered` is not set, and otherwise removes the record and releases
its address back to the pool. -/
def deleteGlobalService (r : Registry) (serviceName : String) :
    Except RegError Registry :=
  match alookup serviceName r.services with
  | none => .error .notFound
  | some g =>
    if g.unregistered then
      .ok { services := removeKey serviceName r.services
            pool := g.address :: r.pool }
    else .error .preconditionFailed

/-- State after an operation: an error leaves the registry unchanged
(all-or-nothing per call). -/
def runOp (r : Registry) (res : Except RegError Registry) :
    Registry × Option RegError :=
  match res with
  | .ok r₁ => (r₁, none)
  | .error e => (r, some e)

/-- Protocols accepted at the boundary (`model.go`: MUST BE one of
HTTP, HTTPS, GRPC, HTTP2, MONGO, TCP). -/
def validProtocol (p : String) : Bool :=
  p = "HTTP" || p = "HTTPS" || p = "GRPC" || p = "HTTP2" || p = "MONGO" || p = "TCP"

/-- Modelled from the spec: boundary validation rejects any port whose
protocol is outside the allowed set before the Registry is invoked. -/
def boundaryContribute (r : Registry) (serviceName clusterName : String)
    (ports : List Port) (backendAddress : String) (dnsPrefixes : List String) :
    Except RegError Registry :=
  if ports.all (fun p => validProtocol p.protocol) then
    contribute r serviceName clusterName ports backendAddress dnsPrefixes
  else .error .validation

/-- Registry states reachable from an empty service table by the Registry
operations (`Get` and `List` do not change state). -/
inductive Reachable : Registry → Prop where
  | init : ∀ pool, Reachable { services := [], pool := pool }
  | contrib : ∀ r s c ps ba dns r₁, Reachable r →
      contribute r s c ps ba dns = .ok r₁ → Reachable r₁
  | withd : ∀ r s c r₁, Reachable r → withdraw r s c = .ok r₁ → Reachable r₁
  | del : ∀ r s r₁, Reachable r → deleteGlobalService r s = .ok r₁ → Reachable r₁

/-- Registry states reachable when every contribution passes boundary
validation first. -/
inductive BoundaryReachable : Registry → Prop where
  | init : ∀ pool, BoundaryReachable { services := [], pool := pool }
  | contrib : ∀ r s c ps ba dns r₁, BoundaryReachable r →
      boundaryContribute r s c ps ba dns = .ok r₁ → BoundaryReachable r₁
  | withd : ∀ r s c r₁, BoundaryReachable r → withdraw r s c = .ok r₁ →
      BoundaryReachable r₁
  | del : ∀ r s r₁, BoundaryReachable r → deleteGlobalService r s = .ok r₁ →
      BoundaryReachable r₁

/-- Invariant: a record marked `Unregistered` has no backends. -/
def unregInvariant (r : Registry) : Prop :=
  ∀ n g, alookup n r.services = some g → g.unregistered = true → g.backends = []

/-- JSON values, for the serialized record shape. -/
inductive Json where
  | str : String → Json
  | num : Nat → Json
  | bool : Bool → Json
  | arr : List Json → Json
  | obj : List (String × Json) → Json

/-- Keys of a JSON object, in order. -/
def jsonKeys : Json → List String
  | .obj kvs => kvs.map Prod.fst
  | _ => []

/-- Serialization of `Port` following the `json:"..."` tags of
`pkg/datamodel/model.go`. -/
def Port.toJson (p : Port) : Json :=
  .obj [("service_port", .num p.servicePort),
        ("protocol", .str p.protocol),
        ("backend_port", .num p.backendPort),
        ("name", .str p.name)]

/-- Serialization of `GlobalService` following the `json:"..."` tags of
`pkg/datamodel/model.go`: field order as declared, `net.IP` rendered as a
string, and `unregistered` tagged `omitempty`, so the key is omitted when
the flag is `false` (the Boolean zero value). -/
def GlobalService.toJson (g : GlobalService) : Json :=
  .obj ([("name", .str g.name),
         ("dns_prefixes", .arr (g.dnsPrefixes.map Json.str)),
         ("ports", .arr (g.ports.map Port.toJson)),
         ("backends", .obj (g.backends.map (fun kv => (kv.1, Json.str kv.2)))),
         ("address", .str (toString g.address))]
        ++ (if g.unregistered then [("unregistered", Json.bool true)] else []))

/-- Deserialization of the `unregistered` field as Go's `encoding/json`
does it: a missing key leaves the zero value `false`. -/
def decodeUnregistered (j : Json) : Bool :=
  match j with
  | .obj kvs =>
    match alookup "unregistered" kvs with
    | some (.bool b) => b
    | _ => false
  | _ => false

/-! ### Association list lemmas -/

theorem alookup_upsert_self {β : Type} (k : String) (v : β)
    (l : List (String × β)) : alookup k (upsert k v l) = some v := by
  induction l with
  | nil => simp [upsert, alookup]
  | cons kv rest ih =>
    obtain ⟨k₁, v₁⟩ := kv
    by_cases h : k₁ = k
    · simp [upsert, h, alookup]
    · simp [upsert, h, alookup, ih]

theorem alookup_upsert_ne {β : Type} {k k₁ : String} (v : β)
    (l : List (String × β)) (h : k₁ ≠ k) :
    alookup k₁ (upsert k v l) = alookup k₁ l := by
  induction l with
  | nil =>
    simp only [upsert, alookup]
    rw [if_neg (fun e => h e.symm)]
  | cons kv rest ih =>
    obtain ⟨k₂, v₂⟩ := kv
    by_cases h₂ : k₂ = k
    · subst h₂
      have hne : ¬ (k₂ = k₁) := fun e => h (e.symm)
      simp [upsert, alookup, hne]
    · simp only [upsert, if_neg h₂, alookup]
      by_cases h₃ : k₂ = k₁
      · simp [h₃]
      · simp [h₃, ih]

theorem upsert_upsert {β : Type} (k : String) (v : β) (l : List (String × β)) :
    upsert k v (upsert k v l) = upsert k v l := by
  induction l with
  | nil => simp [upsert]
  | cons kv rest ih =>
    obtain ⟨k₁, v₁⟩ := kv
    by_cases h : k₁ = k
    · simp [upsert, h]
    · simp [upsert, h, ih]

theorem mem_upsert_self {β : Type} (k : String) (v : β) (l : List (String × β)) :
    (k, v) ∈ upsert k v l := by
  induction l with
  | nil => simp [upsert]
  | cons kv rest ih =>
    obtain ⟨k₁, v₁⟩ := kv
    by_cases h : k₁ = k
    · simp [upsert, h]
    · simp [upsert, h, ih]

theorem alookup_removeKey_self {β : Type} (k : String) (l : List (String × β)) :
    alookup k (removeKey k l) = none := by
  induction l with
  | nil => simp [removeKey, alookup]
  | cons kv rest ih =>
    obtain ⟨k₁, v₁⟩ := kv
    by_cases h : k₁ = k
    · simp [removeKey, h, ih]
    · simp [removeKey, h, alookup, ih]

theorem alookup_removeKey_ne {β : Type} {k k₁ : String} (l : List (String × β))
    (h : k₁ ≠ k) : alookup k₁ (removeKey k l) = alookup k₁ l := by
  induction l with
  | nil => simp [removeKey]
  | cons kv rest ih =>
    obtain ⟨k₂, v₂⟩ := kv
    by_cases h₂ : k₂ = k
    · subst h₂
      have hne : ¬ (k₂ = k₁) := fun e => h (e.symm)
      simp [removeKey, alookup, hne, ih]
    · simp only [removeKey, if_neg h₂, alookup]
      by_cases h₃ : k₂ = k₁
      · simp [h₃]
      · simp [h₃, ih]

/-! ### String order lemmas -/

theorem chainLt_irrefl (l : List Char) : chainLt l l = false := by
  induction l with
  | nil => rfl
  | cons a as ih => simp [chainLt, ih]

theorem chainLt_trans {l₁ l₂ l₃ : List Char} (h₁ : chainLt l₁ l₂ = true)
    (h₂ : chainLt l₂ l₃ = true) : chainLt l₁ l₃ = true := by
  induction l₁ generalizing l₂ l₃ with
  | nil =>
    cases l₃ with
    | nil => cases l₂ <;> simp [chainLt] at h₂
    | cons c cs => rfl
  | cons a as ih =>
    cases l₂ with
    | nil => simp [chainLt] at h₁
    | cons b bs =>
      cases l₃ with
      | nil => simp [chainLt] at h₂
      | cons c cs =>
        simp only [chainLt] at h₁ h₂ ⊢
        by_cases hab : a = b
        · subst hab
          rw [if_pos rfl] at h₁
          by_cases hac : a = c
          · subst hac
            rw [if_pos rfl] at h₂
            rw [if_pos rfl]
            exact ih h₁ h₂
          · rw [if_neg hac] at h₂
            rw [if_neg hac]
            exact h₂
        · rw [if_neg hab] at h₁
          by_cases hbc : b = c
          · subst hbc
            rw [if_neg hab]
            exact h₁
          · rw [if_neg hbc] at h₂
            have hlt : a < c :=
              Char.lt_trans (of_decide_eq_true h₁) (of_decide_eq_true h₂)
            have hac : ¬ (a = c) := by
              intro e
              subst e
              exact absurd (of_decide_eq_true h₁) (Char.lt_asymm (of_decide_eq_true h₂))
            rw [if_neg hac]
            exact decide_eq_true hlt

theorem char_eq_of_not_lt {a b : Char} (h₁ : ¬ a < b) (h₂ : ¬ b < a) : a = b :=
  Char.ext (UInt32.le_antisymm (Char.not_lt.mp h₂) (Char.not_lt.mp h₁))

theorem chainLt_eq_of_not {l₁ l₂ : List Char} (h₁ : chainLt l₁ l₂ = false)
    (h₂ : chainLt l₂ l₁ = false) : l₁ = l₂ := by
  induction l₁ generalizing l₂ with
  | nil =>
    cases l₂ with
    | nil => rfl
    | cons b bs => simp [chainLt] at h₁
  | cons a as ih =>
    cases l₂ with
    | nil => simp [chainLt] at h₂
    | cons b bs =>
      simp only [chainLt] at h₁ h₂
      by_cases hab : a = b
      · subst hab
        rw [if_pos rfl] at h₁ h₂
        rw [ih h₁ h₂]
      · rw [if_neg hab] at h₁
        have hba : ¬ (b = a) := fun e => hab e.symm
        rw [if_neg hba] at h₂
        exact absurd (char_eq_of_not_lt (of_decide_eq_false h₁)
          (of_decide_eq_false h₂)) hab

theorem strLt_irrefl (s : String) : strLt s s = false := chainLt_irrefl s.data

theorem strLt_trans {s t u : String} (h₁ : strLt s t = true)
    (h₂ : strLt t u = true) : strLt s u = true := chainLt_trans h₁ h₂

theorem strLt_eq_of_not {s t : String} (h₁ : strLt s t = false)
    (h₂ : strLt t s = false) : s = t := by
  have h := chainLt_eq_of_not h₁ h₂
  cases s
  cases t
  exact congrArg String.mk h

theorem strLt_asymm {s t : String} (h : strLt s t = true) : strLt t s = false := by
  cases h₁ : strLt t s
  · rfl
  · have := strLt_trans h h₁
    rw [strLt_irrefl] at this
    exact absurd this (by simp)

/-! ### Sorted DNS prefix lemmas -/

theorem mem_insertStr {a s : String} {l : List String} :
    a ∈ insertStr s l ↔ a = s ∨ a ∈ l := by
  induction l with
  | nil => simp [insertStr]
  | cons t ts ih =>
    simp only [insertStr]
    by_cases h₁ : s = t
    · rw [if_pos h₁]
      subst h₁
      simp only [List.mem_cons]
      tauto
    · rw [if_neg h₁]
      by_cases h₂ : strLt s t = true
      · rw [if_pos h₂]
        simp only [List.mem_cons]
      · rw [if_neg h₂]
        simp only [List.mem_cons, ih]
        tauto

theorem pairwise_insertStr {s : String} {l : List String}
    (h : l.Pairwise (fun a b => strLt a b = true)) :
    (insertStr s l).Pairwise (fun a b => strLt a b = true) := by
  induction l with
  | nil => simp [insertStr]
  | cons t ts ih =>
    rcases List.pairwise_cons.mp h with ⟨ht, hts⟩
    by_cases h₁ : s = t
    · subst h₁
      simpa [insertStr] using h
    · by_cases h₂ : strLt s t = true
      · simp only [insertStr, if_neg h₁, if_pos h₂]
        refine List.pairwise_cons.mpr ⟨?_, h⟩
        intro x hx
        rcases List.mem_cons.mp hx with rfl | hx₁
        · exact h₂
        · exact strLt_trans h₂ (ht x hx₁)
      · simp only [insertStr, if_neg h₁, if_neg h₂]
        refine List.pairwise_cons.mpr ⟨?_, ih hts⟩
        intro x hx
        rcases mem_insertStr.mp hx with rfl | hx₁
        · by_cases h₃ : strLt t x = true
          · exact h₃
          · have h₄ : strLt x t = false := by
              cases hv : strLt x t
              · rfl
              · exact absurd hv h₂
            have h₅ : strLt t x = false := by
              cases hv : strLt t x
              · rfl
              · exact absurd hv h₃
            exact absurd (strLt_eq_of_not h₄ h₅) h₁
        · exact ht x hx₁

theorem pairwise_sortDedup (l : List String) :
    (sortDedup l).Pairwise (fun a b => strLt a b = true) := by
  induction l with
  | nil => simp [sortDedup]
  | cons t ts ih => exact pairwise_insertStr ih

theorem mem_sortDedup {a : String} {l : List String} :
    a ∈ sortDedup l ↔ a ∈ l := by
  induction l with
  | nil => simp [sortDedup]
  | cons t ts ih =>
    show a ∈ insertStr t (sortDedup ts) ↔ _
    rw [mem_insertStr, ih]
    simp [List.mem_cons]

theorem sorted_eq_of_mem_iff : ∀ {l₁ l₂ : List String},
    l₁.Pairwise (fun a b => strLt a b = true) →
    l₂.Pairwise (fun a b => strLt a b = true) →
    (∀ a, a ∈ l₁ ↔ a ∈ l₂) → l₁ = l₂ := by
  intro l₁
  induction l₁ with
  | nil =>
    intro l₂ _ _ hmem
    cases l₂ with
    | nil => rfl
    | cons b bs =>
      have hb := (hmem b).mpr (List.mem_cons_self b bs)
      simp at hb
  | cons a as ih =>
    intro l₂ h₁ h₂ hmem
    cases l₂ with
    | nil =>
      have ha := (hmem a).mp (List.mem_cons_self a as)
      simp at ha
    | cons b bs =>
      rcases List.pairwise_cons.mp h₁ with ⟨ha, has⟩
      rcases List.pairwise_cons.mp h₂ with ⟨hb, hbs⟩
      have hab : a = b := by
        rcases List.mem_cons.mp ((hmem a).mp (List.mem_cons_self a as)) with h | h
        · exact h
        · have hba : strLt b a = true := hb a h
          rcases List.mem_cons.mp ((hmem b).mpr (List.mem_cons_self b bs)) with h₃ | h₃
          · exact h₃.symm
          · have hab₁ : strLt a b = true := ha b h₃
            have := strLt_trans hab₁ hba
            rw [strLt_irrefl] at this
            exact absurd this (by simp)
      subst hab
      have htails : ∀ x, x ∈ as ↔ x ∈ bs := by
        intro x
        constructor
        · intro hx
          rcases List.mem_cons.mp ((hmem x).mp (List.mem_cons.mpr (Or.inr hx))) with h₃ | h₃
          · have := ha x hx
            rw [h₃, strLt_irrefl] at this
            exact absurd this (by simp)
          · exact h₃
        · intro hx
          rcases List.mem_cons.mp ((hmem x).mpr (List.mem_cons.mpr (Or.inr hx))) with h₃ | h₃
          · have := hb x hx
            rw [h₃, strLt_irrefl] at this
            exact absurd this (by simp)
          · exact h₃
      rw [ih has hbs htails]

theorem sortDedup_congr {l₁ l₂ : List String} (h : ∀ a, a ∈ l₁ ↔ a ∈ l₂) :
    sortDedup l₁ = sortDedup l₂ :=
  sorted_eq_of_mem_iff (pairwise_sortDedup l₁) (pairwise_sortDedup l₂)
    (fun a => by rw [mem_sortDedup, mem_sortDedup]; exact h a)

theorem sortDedup_redundant (X n : List String) :
    sortDedup (sortDedup (X ++ n) ++ n) = sortDedup (X ++ n) :=
  sortDedup_congr (by
    intro a
    simp only [List.mem_append, mem_sortDedup]
    tauto)

theorem sortDedup_redundant_nil (n : List String) :
    sortDedup (sortDedup n ++ n) = sortDedup n := by
  simpa using sortDedup_redundant [] n

/-! ### Port merge lemmas -/

theorem findPort_eq_some {n : String} : ∀ {l : List Port} {q : Port},
    findPort n l = some q → q ∈ l ∧ q.name = n := by
  intro l
  induction l with
  | nil => intro q h; simp [findPort] at h
  | cons p ps ih =>
    intro q h
    simp only [findPort] at h
    by_cases hp : p.name = n
    · rw [if_pos hp] at h
      cases h
      exact ⟨List.mem_cons_self p ps, hp⟩
    · rw [if_neg hp] at h
      rcases ih h with ⟨h₁, h₂⟩
      exact ⟨List.mem_cons_of_mem p h₁, h₂⟩

theorem findPort_isSome_of_mem {n : String} : ∀ {l : List Port} {q : Port},
    q ∈ l → q.name = n → ∃ q₁, findPort n l = some q₁ := by
  intro l
  induction l with
  | nil => intro q h; simp at h
  | cons p ps ih =>
    intro q hq hn
    simp only [findPort]
    by_cases hp : p.name = n
    · exact ⟨p, by rw [if_pos hp]⟩
    · rw [if_neg hp]
      rcases List.mem_cons.mp hq with rfl | hq₁
      · exact absurd hn hp
      · exact ih hq₁ hn

theorem findPort_append_some {n : String} {l t : List Port} {q : Port}
    (h : findPort n l = some q) : findPort n (l ++ t) = some q := by
  induction l with
  | nil => simp [findPort] at h
  | cons p ps ih =>
    simp only [findPort] at h ⊢
    by_cases hp : p.name = n
    · rw [if_pos hp] at h ⊢
      exact h
    · rw [if_neg hp] at h ⊢
      exact ih h

theorem findPort_append_none {n : String} {l : List Port} (t : List Port)
    (h : findPort n l = none) : findPort n (l ++ t) = findPort n t := by
  induction l with
  | nil => simp
  | cons p ps ih =>
    simp only [findPort] at h ⊢
    by_cases hp : p.name = n
    · rw [if_pos hp] at h
      cases h
    · rw [if_neg hp] at h ⊢
      exact ih h

theorem mergePort_found_ok {acc : List Port} {p q : Port}
    (hfp : findPort p.name acc = some q)
    (hc : q.servicePort = p.servicePort ∧ q.protocol = p.protocol) :
    mergePort acc p = .ok acc := by
  unfold mergePort
  rw [hfp]
  exact if_pos hc

theorem mergePort_cases {acc : List Port} {p : Port}
    {res : Except RegError (List Port)} (h : mergePort acc p = res) :
    (∃ q, findPort p.name acc = some q ∧ q.servicePort = p.servicePort ∧
      q.protocol = p.protocol ∧ res = .ok acc) ∨
    (∃ q, findPort p.name acc = some q ∧
      ¬ (q.servicePort = p.servicePort ∧ q.protocol = p.protocol) ∧
      res = .error .conflict) ∨
    (findPort p.name acc = none ∧ res = .ok (acc ++ [p])) := by
  unfold mergePort at h
  split at h
  · rename_i q hfp
    split at h
    · rename_i hc
      exact Or.inl ⟨q, hfp, hc.1, hc.2, h.symm⟩
    · rename_i hc
      exact Or.inr (Or.inl ⟨q, hfp, hc, h.symm⟩)
  · rename_i hfp
    exact Or.inr (Or.inr ⟨hfp, h.symm⟩)

theorem mergePort_ok_shape {acc : List Port} {p : Port} {acc₁ : List Port}
    (h : mergePort acc p = .ok acc₁) : acc₁ = acc ∨ acc₁ = acc ++ [p] := by
  rcases mergePort_cases h with ⟨q, _, _, _, he⟩ | ⟨q, _, _, he⟩ | ⟨_, he⟩
  · injection he with he₁
    exact Or.inl he₁
  · cases he
  · injection he with he₁
    exact Or.inr he₁

theorem mergePorts_error_conflict : ∀ {ps acc : List Port} {e : RegError},
    mergePorts acc ps = .error e → e = .conflict := by
  intro ps
  induction ps with
  | nil => intro acc e h; simp [mergePorts] at h
  | cons p ps ih =>
    intro acc e h
    simp only [mergePorts] at h
    split at h
    · rename_i e₁ hmp
      injection h with h₁
      subst h₁
      rcases mergePort_cases hmp with ⟨q, _, _, _, he⟩ | ⟨q, _, _, he⟩ | ⟨_, he⟩
      · cases he
      · cases he
        rfl
      · cases he
    · rename_i acc₁ hmp
      exact ih h

theorem mergePorts_prefix : ∀ {ps acc R : List Port},
    mergePorts acc ps = .ok R → ∃ t, R = acc ++ t := by
  intro ps
  induction ps with
  | nil =>
    intro acc R h
    simp only [mergePorts] at h
    injection h with h₁
    exact ⟨[], by simp [h₁]⟩
  | cons p ps ih =>
    intro acc R h
    simp only [mergePorts] at h
    split at h
    · cases h
    · rename_i acc₁ hmp
      rcases ih h with ⟨t, ht⟩
      rcases mergePort_ok_shape hmp with h₁ | h₁
      · exact ⟨t, by rw [ht, h₁]⟩
      · exact ⟨[p] ++ t, by rw [ht, h₁]; simp⟩

theorem mergePorts_find_compat : ∀ {ps acc R : List Port},
    mergePorts acc ps = .ok R → ∀ p ∈ ps, ∃ q, findPort p.name R = some q ∧
      q.servicePort = p.servicePort ∧ q.protocol = p.protocol := by
  intro ps
  induction ps with
  | nil => intro acc R _ p hp; simp at hp
  | cons p₀ ps ih =>
    intro acc R h p hp
    simp only [mergePorts] at h
    split at h
    · cases h
    · rename_i acc₁ hmp
      rcases List.mem_cons.mp hp with rfl | hp₁
      · rcases mergePort_cases hmp with ⟨q, hfp, hsp, hpr, he⟩ | ⟨q, _, _, he⟩ | ⟨hfp, he⟩
        · injection he with he₁
          subst he₁
          rcases mergePorts_prefix h with ⟨t, rfl⟩
          exact ⟨q, findPort_append_some hfp, hsp, hpr⟩
        · cases he
        · injection he with he₁
          subst he₁
          rcases mergePorts_prefix h with ⟨t, rfl⟩
          refine ⟨p, ?_, rfl, rfl⟩
          rw [List.append_assoc, findPort_append_none (([p] : List Port) ++ t) hfp]
          simp [findPort]
      · exact ih h p hp₁

theorem mergePorts_fixed : ∀ {ps R : List Port},
    (∀ p ∈ ps, ∃ q, findPort p.name R = some q ∧
      q.servicePort = p.servicePort ∧ q.protocol = p.protocol) →
    mergePorts R ps = .ok R := by
  intro ps
  induction ps with
  | nil => intro R _; rfl
  | cons p ps ih =>
    intro R h
    rcases h p (List.mem_cons_self p ps) with ⟨q, hfp, hsp, hpr⟩
    have hmp : mergePort R p = .ok R := mergePort_found_ok hfp ⟨hsp, hpr⟩
    simp only [mergePorts]
    rw [hmp]
    exact ih (fun p₁ hp₁ => h p₁ (List.mem_cons_of_mem p hp₁))

theorem mergePorts_idem {E C R : List Port} (h : mergePorts E C = .ok R) :
    mergePorts R C = .ok R :=
  mergePorts_fixed (mergePorts_find_compat h)

theorem mergePorts_mem : ∀ {ps acc R : List Port},
    mergePorts acc ps = .ok R → ∀ q ∈ R, q ∈ acc ∨ q ∈ ps := by
  intro ps
  induction ps with
  | nil =>
    intro acc R h q hq
    simp only [mergePorts] at h
    injection h with h₁
    subst h₁
    exact Or.inl hq
  | cons p ps ih =>
    intro acc R h q hq
    simp only [mergePorts] at h
    split at h
    · cases h
    · rename_i acc₁ hmp
      rcases ih h q hq with h₁ | h₁
      · rcases mergePort_ok_shape hmp with h₂ | h₂
        · subst h₂
          exact Or.inl h₁
        · subst h₂
          rcases List.mem_append.mp h₁ with h₃ | h₃
          · exact Or.inl h₃
          · simp at h₃
            rw [h₃]
            exact Or.inr (List.mem_cons_self p ps)
      · exact Or.inr (List.mem_cons_of_mem p h₁)

/-- Well-formedness of a port set: `Ports` is a mapping by `Name`. -/
def portNamesUnique (l : List Port) : Prop :=
  l.Pairwise (fun a b => a.name ≠ b.name)

theorem mem_name_unique : ∀ {l : List Port}, portNamesUnique l →
    ∀ {a b : Port}, a ∈ l → b ∈ l → a.name = b.name → a = b := by
  intro l
  induction l with
  | nil => intro _ a b ha; simp at ha
  | cons p ps ih =>
    intro hu a b ha hb hn
    rcases List.pairwise_cons.mp hu with ⟨hp, hps⟩
    rcases List.mem_cons.mp ha with rfl | ha₁
    · rcases List.mem_cons.mp hb with rfl | hb₁
      · rfl
      · exact absurd hn (hp b hb₁)
    · rcases List.mem_cons.mp hb with rfl | hb₁
      · exact absurd hn.symm (hp a ha₁)
      · exact ih hps ha₁ hb₁ hn

theorem mergePorts_conflict {E ps : List Port} {p q : Port}
    (hu : portNamesUnique E) (hq : q ∈ E) (hp : p ∈ ps) (hn : q.name = p.name)
    (hd : q.servicePort ≠ p.servicePort ∨ q.protocol ≠ p.protocol) :
    mergePorts E ps = .error .conflict := by
  cases hres : mergePorts E ps with
  | error e => rw [mergePorts_error_conflict hres]
  | ok R =>
    exfalso
    rcases mergePorts_find_compat hres p hp with ⟨q₂, hfind, hsp, hpr⟩
    rcases mergePorts_prefix hres with ⟨t, rfl⟩
    rcases findPort_isSome_of_mem hq hn with ⟨q₁, hq₁⟩
    rcases findPort_eq_some hq₁ with ⟨hq₁mem, hq₁name⟩
    have hq₁q : q₁ = q := mem_name_unique hu hq₁mem hq (hq₁name.trans hn.symm)
    subst hq₁q
    rw [findPort_append_some hq₁] at hfind
    injection hfind with hfind₁
    subst hfind₁
    rcases hd with hd | hd
    · exact hd hsp
    · exact hd hpr

/-! ### Operation shape lemmas -/

theorem contribute_fresh {r : Registry} {s c : String} {ports : List Port}
    {ba : String} {dns : List String} {a : Nat} {ps : List Port}
    (h₁ : alookup s r.services = none) (h₂ : lowestAvail r.pool = some a)
    (h₃ : mergePorts [] ports = .ok ps) :
    contribute r s c ports ba dns =
      .ok { services := upsert s (freshService s c ps ba dns a) r.services,
            pool := removeAddr a r.pool } := by
  unfold contribute
  rw [h₁, h₂, h₃]

theorem contribute_pool_exhausted {r : Registry} {s c : String}
    {ports : List Port} {ba : String} {dns : List String}
    (h₁ : alookup s r.services = none) (h₂ : lowestAvail r.pool = none) :
    contribute r s c ports ba dns = .error .poolExhausted := by
  unfold contribute
  rw [h₁, h₂]

theorem contribute_merge {r : Registry} {s c : String} {ports : List Port}
    {ba : String} {dns : List String} {g : GlobalService} {ps : List Port}
    (h₁ : alookup s r.services = some g)
    (h₃ : mergePorts g.ports ports = .ok ps) :
    contribute r s c ports ba dns =
      .ok { services := upsert s (mergedService g c ps ba dns) r.services,
            pool := r.pool } := by
  simp only [contribute, h₁, h₃]

theorem contribute_merge_err {r : Registry} {s c : String} {ports : List Port}
    {ba : String} {dns : List String} {g : GlobalService} {e : RegError}
    (h₁ : alookup s r.services = some g)
    (h₃ : mergePorts g.ports ports = .error e) :
    contribute r s c ports ba dns = .error e := by
  simp only [contribute, h₁, h₃]

theorem withdraw_some {r : Registry} {s c : String} {g : GlobalService}
    (h : alookup s r.services = some g) :
    withdraw r s c =
      .ok { r with services := upsert s (withdrawnService g c) r.services } := by
  unfold withdraw
  rw [h]

theorem withdraw_none {r : Registry} {s c : String}
    (h : alookup s r.services = none) : withdraw r s c = .error .notFound := by
  unfold withdraw
  rw [h]

theorem delete_none {r : Registry} {s : String}
    (h : alookup s r.services = none) :
    deleteGlobalService r s = .error .notFound := by
  unfold deleteGlobalService
  rw [h]

theorem delete_live {r : Registry} {s : String} {g : GlobalService}
    (h : alookup s r.services = some g) (hu : g.unregistered = false) :
    deleteGlobalService r s = .error .preconditionFailed := by
  unfold deleteGlobalService
  rw [h]
  simp [hu]

theorem delete_unreg {r : Registry} {s : String} {g : GlobalService}
    (h : alookup s r.services = some g) (hu : g.unregistered = true) :
    deleteGlobalService r s =
      .ok { services := removeKey s r.services, pool := g.address :: r.pool } := by
  unfold deleteGlobalService
  rw [h]
  simp [hu]

/-! ### Operation inversion lemmas -/

theorem contribute_cases {r : Registry} {s c : String} {ports : List Port}
    {ba : String} {dns : List String} {r₁ : Registry}
    (h : contribute r s c ports ba dns = .ok r₁) :
    (∃ a ps, alookup s r.services = none ∧ lowestAvail r.pool = some a ∧
      mergePorts [] ports = .ok ps ∧
      r₁ = { services := upsert s (freshService s c ps ba dns a) r.services,
             pool := removeAddr a r.pool }) ∨
    (∃ g ps, alookup s r.services = some g ∧
      mergePorts g.ports ports = .ok ps ∧
      r₁ = { services := upsert s (mergedService g c ps ba dns) r.services,
             pool := r.pool }) := by
  unfold contribute at h
  split at h
  · rename_i hlo
    split at h
    · cases h
    · rename_i a hla
      split at h
      · cases h
      · rename_i ps hmp
        injection h with h₁
        exact Or.inl ⟨a, ps, hlo, hla, hmp, h₁.symm⟩
  · rename_i g hlo
    split at h
    · cases h
    · rename_i ps hmp
      injection h with h₁
      exact Or.inr ⟨g, ps, hlo, hmp, h₁.symm⟩

theorem withdraw_cases {r : Registry} {s c : String} {r₁ : Registry}
    (h : withdraw r s c = .ok r₁) :
    ∃ g₀, alookup s r.services = some g₀ ∧
      r₁ = { r with
             services := upsert s (withdrawnService g₀ c) r.services } := by
  unfold withdraw at h
  split at h
  · cases h
  · rename_i g₀ hlo
    injection h with h₁
    exact ⟨g₀, hlo, h₁.symm⟩

theorem delete_cases {r : Registry} {s : String} {r₁ : Registry}
    (h : deleteGlobalService r s = .ok r₁) :
    ∃ g₀, alookup s r.services = some g₀ ∧ g₀.unregistered = true ∧
      r₁ = { services := removeKey s r.services,
             pool := g₀.address :: r.pool } := by
  unfold deleteGlobalService at h
  split at h
  · cases h
  · rename_i g₀ hlo
    split at h
    · rename_i hu
      injection h with h₁
      exact ⟨g₀, hlo, hu, h₁.symm⟩
    · cases h

theorem contribute_merge₁ {sv : List (String × GlobalService)} {pl : List Nat}
    {s c : String} {ports : List Port} {ba : String} {dns : List String}
    {g : GlobalService} {ps : List Port}
    (h₁ : alookup s sv = some g) (h₃ : mergePorts g.ports ports = .ok ps) :
    contribute { services := sv, pool := pl } s c ports ba dns =
      .ok { services := upsert s (mergedService g c ps ba dns) sv, pool := pl } :=
  contribute_merge h₁ h₃

theorem contribute_ports_subset {r : Registry} {s c : String}
    {ports : List Port} {ba : String} {dns : List String} {r₁ : Registry}
    (h : contribute r s c ports ba dns = .ok r₁) :
    ∀ n g, alookup n r₁.services = some g →
      (∃ g₀, alookup n r.services = some g₀ ∧
        ∀ p ∈ g.ports, p ∈ g₀.ports ∨ p ∈ ports) ∨
      (alookup n r.services = none ∧ ∀ p ∈ g.ports, p ∈ ports) := by
  intro n g h₁
  rcases contribute_cases h with ⟨a, ps, hlo, hla, hmp, rfl⟩ | ⟨g₀, ps, hlo, hmp, rfl⟩
  · by_cases hn : n = s
    · subst hn
      rw [alookup_upsert_self] at h₁
      injection h₁ with h₂
      subst h₂
      right
      refine ⟨hlo, ?_⟩
      intro p hp
      rcases mergePorts_mem hmp p hp with h₃ | h₃
      · simp at h₃
      · exact h₃
    · rw [alookup_upsert_ne _ _ hn] at h₁
      left
      exact ⟨g, h₁, fun p hp => Or.inl hp⟩
  · by_cases hn : n = s
    · subst hn
      rw [alookup_upsert_self] at h₁
      injection h₁ with h₂
      subst h₂
      left
      exact ⟨g₀, hlo, fun p hp => mergePorts_mem hmp p hp⟩
    · rw [alookup_upsert_ne _ _ hn] at h₁
      left
      exact ⟨g, h₁, fun p hp => Or.inl hp⟩

/-! ### Example values used by the witnesses -/

/-- Example port http:80 as in the spec's atomic-rejection scenario. -/
def pHttp80 : Port :=
  { servicePort := 80, protocol := "HTTP", backendPort := 8080, name := "http" }

/-- Conflicting port: same name, different service port. -/
def pHttp81 : Port :=
  { servicePort := 81, protocol := "HTTP", backendPort := 8080, name := "http" }

/-- Registry holding one service contributed by cluster A. -/
def gSvcA : GlobalService :=
  { name := "svc", dnsPrefixes := [], ports := [pHttp80],
    backends := [("A", "10.0.0.1")], address := 0, unregistered := false }

def rSvcA : Registry := { services := [("svc", gSvcA)], pool := [] }

/-- Record with the `Unregistered` flag clear. -/
def gLive : GlobalService :=
  { name := "svc", dnsPrefixes := [], ports := [], backends := [("A", "b")],
    address := 0, unregistered := false }

/-! ### Claim theorems -/

/-- C8: every serialized `GlobalService` uses exactly the fixed field names
`name`, `dns_prefixes`, `ports`, `backends`, `address`, `unregistered`
(the last present exactly when the flag is set, see C10), and every
serialized `Port` uses exactly `service_port`, `protocol`, `backend_port`,
`name`, matching the declared serialized record shape. -/
theorem c8_serialized_field_names :
    (∀ g : GlobalService, jsonKeys (GlobalService.toJson g) =
      ["name", "dns_prefixes", "ports", "backends", "address"] ++
        (if g.unregistered then ["unregistered"] else [])) ∧
    (∀ p : Port, jsonKeys (Port.toJson p) =
      ["service_port", "protocol", "backend_port", "name"]) := by
  constructor
  · intro g
    cases hu : g.unregistered <;> simp [GlobalService.toJson, jsonKeys, hu]
  · intro p
    rfl

/-- C10: when `Unregistered` is false the serialized record omits the
`unregistered` key entirely (`omitempty`); the key appears only for
records in the terminal-pending state; and decoding a record without the
key yields `false`, so the round trip preserves the flag. -/
theorem c10_unregistered_omitempty :
    ∀ g : GlobalService,
      (g.unregistered = false →
        "unregistered" ∉ jsonKeys (GlobalService.toJson g)) ∧
      ("unregistered" ∈ jsonKeys (GlobalService.toJson g) →
        g.unregistered = true) ∧
      decodeUnregistered (GlobalService.toJson g) = g.unregistered := by
  intro g
  cases hu : g.unregistered
  · refine ⟨fun _ => ?_, fun hmem => ?_, ?_⟩
    · simp [GlobalService.toJson, jsonKeys, hu]
    · simp [GlobalService.toJson, jsonKeys, hu] at hmem
    · simp [GlobalService.toJson, decodeUnregistered, hu, alookup]
  · refine ⟨fun hfalse => ?_, fun _ => rfl, ?_⟩
    · cases hfalse
    · simp [GlobalService.toJson, decodeUnregistered, hu, alookup]

/-- Witness for C10 at a concrete record with the flag clear. -/
theorem c10_witness :
    "unregistered" ∉ jsonKeys (GlobalService.toJson gLive) :=
  (c10_unregistered_omitempty gLive).1 rfl

/-- C5: `Delete` returns `NotFoundError` when the record is absent,
`PreconditionFailedError` (state unchanged) when `Unregistered` is clear,
and on success removes the record entirely and releases its address back
to the pool, so that a subsequent `Allocate` may return the freed
address. -/
theorem c5_delete_contract :
    (∀ (r : Registry) (s : String), alookup s r.services = none →
      deleteGlobalService r s = .error .notFound) ∧
    (∀ (r : Registry) (s : String) (g : GlobalService),
      alookup s r.services = some g → g.unregistered = false →
      runOp r (deleteGlobalService r s) = (r, some .preconditionFailed)) ∧
    (∀ (r : Registry) (s : String) (g : GlobalService),
      alookup s r.services = some g → g.unregistered = true →
      ∃ r₁, deleteGlobalService r s = .ok r₁ ∧
        alookup s r₁.services = none ∧
        (∀ n, n ≠ s → alookup n r₁.services = alookup n r.services) ∧
        g.address ∈ r₁.pool ∧
        (r.pool = [] → lowestAvail r₁.pool = some g.address)) := by
  refine ⟨?_, ?_, ?_⟩
  · intro r s h
    exact delete_none h
  · intro r s g h hu
    rw [delete_live h hu]
    rfl
  · intro r s g h hu
    refine ⟨_, delete_unreg h hu, ?_, ?_, ?_, ?_⟩
    · exact alookup_removeKey_self s r.services
    · intro n hn
      exact alookup_removeKey_ne r.services hn
    · simp
    · intro hp
      simp [hp, lowestAvail]

/-- Witness for C5 at a concrete empty registry. -/
theorem c5_witness :
    deleteGlobalService { services := [], pool := [] } "svc" =
      .error .notFound :=
  c5_delete_contract.1 { services := [], pool := [] } "svc" rfl

/-- C2: a `Contribute` whose ports contain a name that already exists in
the target service's port set with a different `ServicePort` or
`Protocol` returns `ConflictError` and leaves the registry state exactly
as it was before the call. -/
theorem c2_conflict_atomic :
    ∀ (r : Registry) (s c : String) (ports : List Port) (ba : String)
      (dns : List String) (g : GlobalService) (p q : Port),
      alookup s r.services = some g → portNamesUnique g.ports →
      q ∈ g.ports → p ∈ ports → q.name = p.name →
      (q.servicePort ≠ p.servicePort ∨ q.protocol ≠ p.protocol) →
      runOp r (contribute r s c ports ba dns) = (r, some .conflict) := by
  intro r s c ports ba dns g p q hlo hu hq hp hn hd
  rw [contribute_merge_err hlo (mergePorts_conflict hu hq hp hn hd)]
  rfl

/-- Witness for C2: the spec's atomic-rejection scenario, cluster B
contributes http:81 against an existing http:80. -/
theorem c2_witness :
    runOp rSvcA (contribute rSvcA "svc" "B" [pHttp81] "10.0.0.2" []) =
      (rSvcA, some .conflict) :=
  c2_conflict_atomic rSvcA "svc" "B" [pHttp81] "10.0.0.2" [] gSvcA pHttp81
    pHttp80 rfl (by simp [portNamesUnique, gSvcA]) (by simp [gSvcA])
    (by simp) rfl (by simp [pHttp80, pHttp81])

/-- C9: any contribution carrying a protocol outside
HTTP|HTTPS|GRPC|HTTP2|MONGO|TCP is rejected with a validation error at
the boundary before the Registry is invoked, and consequently no
registry state reachable through the boundary ever stores a port with an
out-of-set protocol. -/
theorem c9_protocol_validation :
    (∀ (r : Registry) (s c : String) (ports : List Port) (ba : String)
      (dns : List String) (p : Port), p ∈ ports →
      validProtocol p.protocol = false →
      boundaryContribute r s c ports ba dns = .error .validation) ∧
    (∀ r, BoundaryReachable r → ∀ n g, alookup n r.services = some g →
      ∀ p ∈ g.ports, validProtocol p.protocol = true) := by
  constructor
  · intro r s c ports ba dns p hp hv
    have hall : ¬ (ports.all (fun p₁ => validProtocol p₁.protocol) = true) := by
      intro hall
      have h₁ := List.all_eq_true.mp hall p hp
      rw [hv] at h₁
      cases h₁
    unfold boundaryContribute
    rw [if_neg hall]
  · intro r hr
    induction hr with
    | init pool =>
      intro n g h p hp
      simp [alookup] at h
    | contrib r s c ps ba dns r₁ hr hco ih =>
      intro n g h p hp
      unfold boundaryContribute at hco
      split at hco
      · rename_i hall
        rcases contribute_ports_subset hco n g h with ⟨g₀, hlo, hsub⟩ | ⟨hlo, hsub⟩
        · rcases hsub p hp with h₁ | h₁
          · exact ih n g₀ hlo p h₁
          · exact List.all_eq_true.mp hall p h₁
        · exact List.all_eq_true.mp hall p (hsub p hp)
      · cases hco
    | withd r s c r₁ hr hw ih =>
      intro n g h p hp
      rcases withdraw_cases hw with ⟨g₀, hlo, rfl⟩
      by_cases hn : n = s
      · subst hn
        rw [alookup_upsert_self] at h
        injection h with h₁
        subst h₁
        exact ih n g₀ hlo p hp
      · rw [alookup_upsert_ne _ _ hn] at h
        exact ih n g h p hp
    | del r s r₁ hr hd ih =>
      intro n g h p hp
      rcases delete_cases hd with ⟨g₀, hlo, hu, rfl⟩
      by_cases hn : n = s
      · subst hn
        rw [alookup_removeKey_self] at h
        cases h
      · rw [alookup_removeKey_ne _ hn] at h
        exact ih n g h p hp

/-- Witness for C9: an out-of-set protocol (UDP) is rejected at the
boundary. -/
theorem c9_witness :
    boundaryContribute { services := [], pool := [0] } "svc" "A"
      [{ servicePort := 53, protocol := "UDP", backendPort := 53,
         name := "dns" }] "10.0.0.1" [] = .error .validation :=
  c9_protocol_validation.1 { services := [], pool := [0] } "svc" "A"
    [{ servicePort := 53, protocol := "UDP", backendPort := 53,
       name := "dns" }] "10.0.0.1" []
    { servicePort := 53, protocol := "UDP", backendPort := 53, name := "dns" }
    (by simp) rfl

/-- C4: in every reachable registry state a record with `Unregistered`
set has an empty `Backends` map; a `Withdraw` that empties `Backends`
sets the flag, and a `Contribute` clears the flag while adding the
contributing cluster's `Backends` entry. -/
theorem c4_unregistered_invariant :
    (∀ r, Reachable r → unregInvariant r) ∧
    (∀ (r : Registry) (s c : String) (r₁ : Registry),
      withdraw r s c = .ok r₁ →
      ∀ g, alookup s r₁.services = some g →
        g.backends = [] → g.unregistered = true) ∧
    (∀ (r : Registry) (s c : String) (ports : List Port) (ba : String)
      (dns : List String) (r₁ : Registry),
      contribute r s c ports ba dns = .ok r₁ →
      ∃ g, alookup s r₁.services = some g ∧ g.unregistered = false ∧
        (c, ba) ∈ g.backends) := by
  refine ⟨?_, ?_, ?_⟩
  · intro r hr
    induction hr with
    | init pool =>
      intro n g h
      simp [alookup] at h
    | contrib r s c ps ba dns r₁ hr hco ih =>
      intro n g h htrue
      rcases contribute_cases hco with ⟨a, ps₁, hlo, hla, hmp, rfl⟩ |
        ⟨g₀, ps₁, hlo, hmp, rfl⟩
      · by_cases hn : n = s
        · subst hn
          rw [alookup_upsert_self] at h
          injection h with h₁
          subst h₁
          simp [freshService] at htrue
        · rw [alookup_upsert_ne _ _ hn] at h
          exact ih n g h htrue
      · by_cases hn : n = s
        · subst hn
          rw [alookup_upsert_self] at h
          injection h with h₁
          subst h₁
          simp [mergedService] at htrue
        · rw [alookup_upsert_ne _ _ hn] at h
          exact ih n g h htrue
    | withd r s c r₁ hr hw ih =>
      intro n g h htrue
      rcases withdraw_cases hw with ⟨g₀, hlo, rfl⟩
      by_cases hn : n = s
      · subst hn
        rw [alookup_upsert_self] at h
        injection h with h₁
        subst h₁
        simp only [withdrawnService] at htrue ⊢
        cases hb : removeKey c g₀.backends with
        | nil => simp [hb]
        | cons x xs =>
          simp only [hb] at htrue
          have hbe := ih n g₀ hlo htrue
          rw [hbe] at hb
          simp [removeKey] at hb
      · rw [alookup_upsert_ne _ _ hn] at h
        exact ih n g h htrue
    | del r s r₁ hr hd ih =>
      intro n g h htrue
      rcases delete_cases hd with ⟨g₀, hlo, hu, rfl⟩
      by_cases hn : n = s
      · subst hn
        rw [alookup_removeKey_self] at h
        cases h
      · rw [alookup_removeKey_ne _ hn] at h
        exact ih n g h htrue
  · intro r s c r₁ hw g h hbe
    rcases withdraw_cases hw with ⟨g₀, hlo, rfl⟩
    rw [alookup_upsert_self] at h
    injection h with h₁
    subst h₁
    simp only [withdrawnService] at hbe ⊢
    simp [hbe]
  · intro r s c ports ba dns r₁ hco
    rcases contribute_cases hco with ⟨a, ps₁, hlo, hla, hmp, rfl⟩ |
      ⟨g₀, ps₁, hlo, hmp, rfl⟩
    · refine ⟨_, alookup_upsert_self _ _ _, rfl, ?_⟩
      simp [freshService]
    · refine ⟨_, alookup_upsert_self _ _ _, rfl, ?_⟩
      simp only [mergedService]
      exact mem_upsert_self c ba g₀.backends

/-- Witness for C4: the invariant holds at a reachable initial state. -/
theorem c4_witness : unregInvariant { services := [], pool := [] } :=
  c4_unregistered_invariant.1 { services := [], pool := [] }
    (Reachable.init [])

/-- C7: the DNS prefixes exposed on read are the union of all contributed
prefixes in deterministic sorted order regardless of insertion order; in
particular contributing b.ns1 then a.ns1 yields
`DNSPrefixes = [a.ns1, b.ns1]`. -/
theorem c7_dns_sorted :
    (∀ (r : Registry) (s c : String) (ports : List Port) (ba : String)
      (dns : List String) (r₁ : Registry) (g : GlobalService),
      contribute r s c ports ba dns = .ok r₁ →
      alookup s r₁.services = some g →
      g.dnsPrefixes.Pairwise (fun x y => strLt x y = true) ∧
      (∀ x, x ∈ g.dnsPrefixes ↔
        (x ∈ dns ∨ ∃ g₀, alookup s r.services = some g₀ ∧
          x ∈ g₀.dnsPrefixes))) ∧
    ((contribute { services := [], pool := [0] } "svc" "A" [] "10.0.0.1"
        ["b.ns1"]).bind (fun r₁ =>
      (contribute r₁ "svc" "B" [] "10.0.0.2" ["a.ns1"]).bind (fun r₂ =>
        getGlobalService r₂ "svc"))).map GlobalService.dnsPrefixes =
      .ok ["a.ns1", "b.ns1"] := by
  constructor
  · intro r s c ports ba dns r₁ g h h₁
    rcases contribute_cases h with ⟨a, ps, hlo, hla, hmp, rfl⟩ |
      ⟨g₀, ps, hlo, hmp, rfl⟩
    · rw [alookup_upsert_self] at h₁
      injection h₁ with h₂
      subst h₂
      simp only [freshService]
      refine ⟨pairwise_sortDedup dns, ?_⟩
      intro x
      rw [mem_sortDedup]
      simp [hlo]
    · rw [alookup_upsert_self] at h₁
      injection h₁ with h₂
      subst h₂
      simp only [mergedService]
      refine ⟨pairwise_sortDedup _, ?_⟩
      intro x
      rw [mem_sortDedup]
      simp only [List.mem_append, hlo, Option.some.injEq]
      constructor
      · rintro (h₃ | h₃)
        · exact Or.inr ⟨g₀, rfl, h₃⟩
        · exact Or.inl h₃
      · rintro (h₃ | ⟨g₁, h₄, h₃⟩)
        · exact Or.inr h₃
        · subst h₄
          exact Or.inl h₃
  · decide

/-- Witness for C7: the record produced by the first contribution of the
spec's ordering scenario has its DNS prefixes strictly sorted. -/
theorem c7_witness :
    (freshService "svc" "A" [] "10.0.0.1" ["b.ns1"] 0).dnsPrefixes.Pairwise
      (fun x y => strLt x y = true) :=
  (c7_dns_sorted.1 { services := [], pool := [0] } "svc" "A" [] "10.0.0.1"
    ["b.ns1"]
    { services := [("svc", freshService "svc" "A" [] "10.0.0.1" ["b.ns1"] 0)],
      pool := [] }
    (freshService "svc" "A" [] "10.0.0.1" ["b.ns1"] 0)
    (by decide) (by decide)).1

/-- C3: `Contribute` is idempotent — re-applying an identical contribution
to the state it produced is accepted and leaves that state unchanged (no
duplicate Backends, Ports or DNSPrefixes entries, no second address
allocation). -/
theorem c3_contribute_idempotent :
    ∀ (r : Registry) (s c : String) (ports : List Port) (ba : String)
      (dns : List String) (r₁ : Registry),
      contribute r s c ports ba dns = .ok r₁ →
      contribute r₁ s c ports ba dns = .ok r₁ := by
  intro r s c ports ba dns r₁ h
  rcases contribute_cases h with ⟨a, ps, hlo, hla, hmp, rfl⟩ |
    ⟨g₀, ps, hlo, hmp, rfl⟩
  · have hms : mergedService (freshService s c ps ba dns a) c ps ba dns
        = freshService s c ps ba dns a := by
      simp [mergedService, freshService, sortDedup_redundant_nil, upsert]
    rw [contribute_merge₁
      (alookup_upsert_self s (freshService s c ps ba dns a) r.services)
      (mergePorts_idem hmp),
      show (freshService s c ps ba dns a).ports = ps from rfl, hms,
      upsert_upsert]
  · have hms : mergedService (mergedService g₀ c ps ba dns) c ps ba dns
        = mergedService g₀ c ps ba dns := by
      simp [mergedService, sortDedup_redundant, upsert_upsert]
    rw [contribute_merge₁
      (alookup_upsert_self s (mergedService g₀ c ps ba dns) r.services)
      (mergePorts_idem hmp),
      show (mergedService g₀ c ps ba dns).ports = ps from rfl, hms,
      upsert_upsert]

/-- Record produced by the concrete contribution in the C3 witness. -/
def gC3 : GlobalService :=
  { name := "svc", dnsPrefixes := ["d"], ports := [], backends := [("A", "b")],
    address := 0, unregistered := false }

/-- Registry state produced by the concrete contribution in the C3
witness. -/
def rC3 : Registry := { services := [("svc", gC3)], pool := [] }

/-- Witness for C3: re-applying a concrete contribution fixes the
produced state. -/
theorem c3_witness : contribute rC3 "svc" "A" [] "b" ["d"] = .ok rC3 :=
  c3_contribute_idempotent { services := [], pool := [0] } "svc" "A" [] "b"
    ["d"] rC3 (by decide)

/-- C1: for a previously-nonexistent service name, concurrent
contributions from two different clusters — which the spec's per-name
serialization reduces to the two atomic call orders — both end with the
two clusters' `Backends` entries present, and the address is allocated
exactly once, by the first call. -/
theorem c1_no_lost_update :
    ∀ (r : Registry) (s A B : String) (psA psB : List Port) (baA baB : String)
      (dnsA dnsB : List String) (a : Nat) (mA mAB mB mBA : List Port),
      alookup s r.services = none → lowestAvail r.pool = some a → A ≠ B →
      mergePorts [] psA = .ok mA → mergePorts mA psB = .ok mAB →
      mergePorts [] psB = .ok mB → mergePorts mB psA = .ok mBA →
      ((∃ r₁ r₂ g, contribute r s A psA baA dnsA = .ok r₁ ∧
        contribute r₁ s B psB baB dnsB = .ok r₂ ∧
        alookup s r₂.services = some g ∧
        (A, baA) ∈ g.backends ∧ (B, baB) ∈ g.backends ∧
        g.address = a ∧ r₂.pool = removeAddr a r.pool) ∧
      (∃ r₁ r₂ g, contribute r s B psB baB dnsB = .ok r₁ ∧
        contribute r₁ s A psA baA dnsA = .ok r₂ ∧
        alookup s r₂.services = some g ∧
        (A, baA) ∈ g.backends ∧ (B, baB) ∈ g.backends ∧
        g.address = a ∧ r₂.pool = removeAddr a r.pool)) := by
  intro r s A B psA psB baA baB dnsA dnsB a mA mAB mB mBA hlo hla hAB hmA
    hmAB hmB hmBA
  constructor
  · refine ⟨_, _, _, contribute_fresh hlo hla hmA,
      contribute_merge₁ (alookup_upsert_self s _ r.services) hmAB,
      alookup_upsert_self s _ _, ?_, ?_, rfl, rfl⟩
    · simp [mergedService, freshService, upsert, hAB]
    · simp [mergedService, freshService, upsert, hAB]
  · have hBA : B ≠ A := fun e => hAB e.symm
    refine ⟨_, _, _, contribute_fresh hlo hla hmB,
      contribute_merge₁ (alookup_upsert_self s _ r.services) hmBA,
      alookup_upsert_self s _ _, ?_, ?_, rfl, rfl⟩
    · simp [mergedService, freshService, upsert, hBA]
    · simp [mergedService, freshService, upsert, hBA]

/-- Witness for C1 at a concrete two-cluster scenario. -/
theorem c1_witness :
    ((∃ r₁ r₂ g,
        contribute { services := [], pool := [7] } "svc" "A" [] "10.0.0.1" []
          = .ok r₁ ∧
        contribute r₁ "svc" "B" [] "10.0.0.2" [] = .ok r₂ ∧
        alookup "svc" r₂.services = some g ∧
        ("A", "10.0.0.1") ∈ g.backends ∧ ("B", "10.0.0.2") ∈ g.backends ∧
        g.address = 7 ∧ r₂.pool = removeAddr 7 [7]) ∧
      (∃ r₁ r₂ g,
        contribute { services := [], pool := [7] } "svc" "B" [] "10.0.0.2" []
          = .ok r₁ ∧
        contribute r₁ "svc" "A" [] "10.0.0.1" [] = .ok r₂ ∧
        alookup "svc" r₂.services = some g ∧
        ("A", "10.0.0.1") ∈ g.backends ∧ ("B", "10.0.0.2") ∈ g.backends ∧
        g.address = 7 ∧ r₂.pool = removeAddr 7 [7])) :=
  c1_no_lost_update { services := [], pool := [7] } "svc" "A" "B" [] []
    "10.0.0.1" "10.0.0.2" [] [] 7 [] [] [] [] rfl rfl (by decide) rfl rfl
    rfl rfl
